import Mathlib

/-!
Verification of the Project / Module index and the symbolic-execution State
of this repository (src/project.rs and src/state.rs), as a shallow embedding.

External collaborators are modelled abstractly, following the repository's own
boundary: LLVM modules and functions become records of the data the code reads
(names, function lists, named-struct tables); the SMT solver becomes the
standard scoped constraint stack (`assert` adds to the current scope, `push`
opens a scope, `pop 1` discards the newest scope), with `check` an arbitrary
function `sat` of the asserted constraint multiset, since the code treats the
solver's verdict as opaque data.  Rust `panic!` / failed `assert_eq!` are
embedded as `Except` error values carrying the same diagnostic data the panic
message reports.
-/

namespace Haybale

/-- LLVM types as far as the named-struct reconciliation inspects them:
`Type::StructType` with its element list (and packed flag, which participates
in structural equality), and all other `Type` variants abstracted into an
opaque tag.  The reconciliation only ever asks two questions of a `Type`:
structural equality, and whether its element list is empty; so each element
type is itself abstracted to an opaque tag, which preserves both. -/
inductive LLVMType where
  | structType (element_types : List Nat) (is_packed : Bool)
  | otherType (tag : Nat)
deriving DecidableEq

/-- The guard `Type::StructType { element_types, .. } if element_types.is_empty()`
used in `get_named_struct_type_by_name`. -/
def isEmptyStruct : LLVMType → Bool
  | .structType els _ => els.isEmpty
  | _ => false

/-- An LLVM function, as far as `Project` lookup inspects it: its name, plus an
opaque tag so distinct functions of the same name can be told apart. -/
structure Func where
  name : String
  tag : Nat
deriving DecidableEq

/-- An LLVM module: its name, its functions, and its named-struct table
(`None` entries are opaque declarations). -/
structure Module where
  name : String
  functions : List Func
  named_struct_types : List (String × Option LLVMType)
deriving DecidableEq

/-- `llvm_ir::Module::get_func_by_name`: the function of the given name in this
module, if any. -/
def Module.get_func_by_name (m : Module) (name : String) : Option Func :=
  m.functions.find? (fun f => f.name == name)

/-- `module.named_struct_types.iter().find(|&(n, _)| n == name).map(|(_, t)| t)`
from `Project::get_named_struct_type_by_name`. -/
def Module.findNamedStruct (m : Module) (name : String) : Option (Option LLVMType) :=
  (m.named_struct_types.find? (fun p => p.1 == name)).map (fun p => p.2)

/-- A `Project` is a collection of LLVM modules (field `modules: Vec<Module>`). -/
structure Project where
  modules : List Module
deriving DecidableEq

/-- Data of the panic message of `Project::get_func_by_name` when two modules
both define the name: the name and both module names, in the order the panic
reports them. -/
structure FuncConflict where
  func_name : String
  first_module : String
  second_module : String
deriving DecidableEq

/-- The loop body of `Project::get_func_by_name`, threading the `retval`
accumulator through the module list; `.error` embeds the `panic!`. -/
def getFuncByNameAux (name : String) (retval : Option (Func × Module)) :
    List Module → Except FuncConflict (Option (Func × Module))
  | [] => .ok retval
  | m :: ms =>
    match m.get_func_by_name name with
    | some f =>
      match retval with
      | none => getFuncByNameAux name (some (f, m)) ms
      | some (_, retmod) => .error ⟨name, retmod.name, m.name⟩
    | none => getFuncByNameAux name retval ms

/-- `Project::get_func_by_name`: scan modules in insertion order; panic
(= `.error`) if two modules define the name. -/
def Project.get_func_by_name (p : Project) (name : String) :
    Except FuncConflict (Option (Func × Module)) :=
  getFuncByNameAux name none p.modules

/-- Data of the panic message of `Project::get_named_struct_type_by_name` for
genuinely conflicting definitions: the name, both module names, and both
definitions, in the order the panic reports them. -/
structure StructConflict where
  struct_name : String
  first_module : String
  second_module : String
  first_def : LLVMType
  second_def : LLVMType
deriving DecidableEq

/-- One iteration of the loop of `Project::get_named_struct_type_by_name` for a
module in which the name was found with table entry `t`: the `match (retval, t)`
block, including the duplicate-definition reconciliation and its `panic!`. -/
def structStep (name : String) (retval : Option (Option LLVMType × Module))
    (m : Module) (t : Option LLVMType) :
    Except StructConflict (Option (Option LLVMType × Module)) :=
  match retval, t with
  | none, t => .ok (some (t, m))
  | some r, none => .ok (some r)
  | some (none, _), some d => .ok (some (some d, m))
  | some (some def1, retmod), some def2 =>
    if def1 = def2 then .ok (some (some def1, retmod))
    else if isEmptyStruct def1 then .ok (some (some def2, m))
    else if isEmptyStruct def2 then .ok (some (some def1, retmod))
    else .error ⟨name, retmod.name, m.name, def1, def2⟩

/-- The loop of `Project::get_named_struct_type_by_name`, threading `retval`. -/
def getNamedStructAux (name : String) (retval : Option (Option LLVMType × Module)) :
    List Module → Except StructConflict (Option (Option LLVMType × Module))
  | [] => .ok retval
  | m :: ms =>
    match m.findNamedStruct name with
    | none => getNamedStructAux name retval ms
    | some t =>
      match structStep name retval m t with
      | .error e => .error e
      | .ok r => getNamedStructAux name r ms

/-- `Project::get_named_struct_type_by_name`. -/
def Project.get_named_struct_type_by_name (p : Project) (name : String) :
    Except StructConflict (Option (Option LLVMType × Module)) :=
  getNamedStructAux name none p.modules

/-- `Project::all_functions`: every function paired with its owning module, in
module insertion order. -/
def Project.all_functions (p : Project) : List (Func × Module) :=
  (p.modules.map (fun m => m.functions.map (fun f => (f, m)))).flatten

/-- A filesystem path, carrying the one attribute the directory scan inspects:
its extension (if any). -/
structure FsPath where
  full : String
  extension : Option String
deriving DecidableEq

/-- A directory entry from `read_dir`: a path, plus the `file_type()` outcome
(`.error` when the directory-ness cannot be determined). -/
structure DirEntry where
  path : FsPath
  fileType : Except String Bool

/-- `entry_is_dir` (project.rs): `Some(true)` when the entry is a directory,
`Some(false)` when not, `None` on an I/O error or an `Err` entry. -/
def entry_is_dir : Except String DirEntry → Option Bool
  | .ok e => e.fileType.toOption
  | .error _ => none

/-- Rust `Result::is_err`. -/
def isError : Except ε α → Bool
  | .error _ => true
  | .ok _ => false

/-- Rust `Iterator::collect::<Result<Vec<_>, _>>`: the whole list on success,
the first error otherwise. -/
def collectExcept : List (Except String α) → Except String (List α)
  | [] => .ok []
  | x :: xs =>
    match x with
    | .error e => .error e
    | .ok a => (collectExcept xs).map (fun l => a :: l)

/-- `Project::modules_from_bc_dir`.  The directory listing (the `read_dir`
outcome) and the bitcode parser (`Module::from_bc_path`) are the I/O
collaborators, passed in as data. -/
def modules_from_bc_dir (parse : FsPath → Except String Module)
    (listing : Except String (List (Except String DirEntry)))
    (extn : String) (exclude : FsPath → Bool) : Except String (List Module) :=
  match listing with
  | .error e => .error e
  | .ok entries =>
    collectExcept
      (((entries.filter (fun entry =>
            match entry_is_dir entry with
            | some true => false
            | some false => true
            | none => true)).map (fun entry => entry.map (fun e => e.path))
        |>.filter (fun r =>
            match r with
            | .ok path =>
              match path.extension with
              | some e => e == extn && !(exclude path)
              | none => false
            | .error _ => true))
        |>.map (fun r => r.bind (fun path => parse path)))

/-- `Project::add_bc_path`.  The pair gives the method's result together with
the project afterwards; the error case returns (via `?`) before the `push`, so
the project is the unchanged receiver. -/
def Project.add_bc_path (parse : FsPath → Except String Module) (p : Project)
    (path : FsPath) : Except String Unit × Project :=
  match parse path with
  | .error e => (.error e, p)
  | .ok m => (.ok (), ⟨p.modules ++ [m]⟩)

/-- `Project::add_bc_dir`: parse the whole directory first, then extend. -/
def Project.add_bc_dir (parse : FsPath → Except String Module) (p : Project)
    (listing : Except String (List (Except String DirEntry))) (extn : String) :
    Except String Unit × Project :=
  match modules_from_bc_dir parse listing extn (fun _ => false) with
  | .error e => (.error e, p)
  | .ok ms => (.ok (), ⟨p.modules ++ ms⟩)

/-- `Project::add_bc_dir_with_blacklist`. -/
def Project.add_bc_dir_with_blacklist (parse : FsPath → Except String Module)
    (p : Project) (listing : Except String (List (Except String DirEntry)))
    (extn : String) (exclude : FsPath → Bool) :
    Except String Unit × Project :=
  match modules_from_bc_dir parse listing extn exclude with
  | .error e => (.error e, p)
  | .ok ms => (.ok (), ⟨p.modules ++ ms⟩)

/-! State (state.rs).  Type parameters: `BVT` = solver bitvector terms,
`BoolT` = solver boolean terms, `BB` = basic blocks, `IRV` = IR value
identities (VarMap keys).  All four are opaque handles from the State's point
of view. -/

/-- The `BVorBool` sum stored in the VarMap. -/
inductive BVorBool (BVT BoolT : Type) where
  | bv (t : BVT)
  | boolTerm (t : BoolT)
deriving DecidableEq

/-- The z3 solver session, per the collaborator interface: a base scope of
constraints plus a stack of pushed scopes, newest first.  `assert` adds to the
newest scope, `push` opens a fresh empty scope, `pop 1` discards the newest
pushed scope. -/
structure Solver (BoolT : Type) where
  base : List BoolT
  scopes : List (List BoolT)
deriving DecidableEq

/-- `solver.assert(c)`. -/
def Solver.assertCond (sv : Solver BoolT) (c : BoolT) : Solver BoolT :=
  match sv.scopes with
  | [] => ⟨c :: sv.base, []⟩
  | h :: t => ⟨sv.base, (c :: h) :: t⟩

/-- `solver.push()`. -/
def Solver.pushScope (sv : Solver BoolT) : Solver BoolT :=
  ⟨sv.base, [] :: sv.scopes⟩

/-- `solver.pop(1)`. -/
def Solver.popScope (sv : Solver BoolT) : Solver BoolT :=
  ⟨sv.base, sv.scopes.tail⟩

/-- The solver's current constraint set: everything asserted and not popped. -/
def Solver.allConstraints (sv : Solver BoolT) : List BoolT :=
  sv.scopes.foldr (fun sc acc => sc ++ acc) sv.base

/-- `solver.check()`: the solver's verdict is an arbitrary but fixed function
`sat` of the asserted constraint set. -/
def Solver.checkSat (sat : List BoolT → Bool) (sv : Solver BoolT) : Bool :=
  sat sv.allConstraints

/-- A `BacktrackPoint` (state.rs): where to resume, the predecessor block for
phi evaluation, and the constraint to add only upon revert. -/
structure BacktrackPoint (BoolT BB : Type) where
  next_bb : BB
  prev_bb : BB
  constraint : BoolT
deriving DecidableEq

/-- The `State`: solver session, VarMap, and backtrack stack.  The VarMap is a
key-value list whose lookups take the most recent binding, modelling
`HashMap::insert` overwrite semantics; the backtrack stack's head is its top
(the `Vec`'s last element). -/
structure State (BVT BoolT BB IRV : Type) where
  solver : Solver BoolT
  vars : List (IRV × BVorBool BVT BoolT)
  backtrack_points : List (BacktrackPoint BoolT BB)
deriving DecidableEq

/-- `State::new(ctx)`. -/
def State.new (BVT BoolT BB IRV : Type) : State BVT BoolT BB IRV :=
  ⟨⟨[], []⟩, [], []⟩

/-- `State::assert`. -/
def State.assertCond (s : State BVT BoolT BB IRV) (c : BoolT) :
    State BVT BoolT BB IRV :=
  { s with solver := s.solver.assertCond c }

/-- `State::check`. -/
def State.check (sat : List BoolT → Bool) (s : State BVT BoolT BB IRV) : Bool :=
  s.solver.checkSat sat

/-- `State::check_with_extra_constraints`: push a scratch scope, assert each of
`conds` in order, check, pop.  The pair gives the returned verdict and the
state afterwards. -/
def State.check_with_extra_constraints (sat : List BoolT → Bool)
    (s : State BVT BoolT BB IRV) (conds : List BoolT) :
    Bool × State BVT BoolT BB IRV :=
  let pushed := s.solver.pushScope
  let asserted := conds.foldl (fun sv c => sv.assertCond c) pushed
  let retval := asserted.checkSat sat
  (retval, { s with solver := asserted.popScope })

/-- `State::add_bv_var`. -/
def State.add_bv_var (s : State BVT BoolT BB IRV) (v : IRV) (bv : BVT) :
    State BVT BoolT BB IRV :=
  { s with vars := (v, .bv bv) :: s.vars }

/-- `State::add_bool_var`. -/
def State.add_bool_var (s : State BVT BoolT BB IRV) (v : IRV) (b : BoolT) :
    State BVT BoolT BB IRV :=
  { s with vars := (v, .boolTerm b) :: s.vars }

/-- `self.vars.get(&v.as_any_value_enum())`. -/
def State.lookupVar [DecidableEq IRV] (s : State BVT BoolT BB IRV) (v : IRV) :
    Option (BVorBool BVT BoolT) :=
  (s.vars.find? (fun p => p.1 = v)).map (fun p => p.2)

/-- `State::save_backtracking_point`: push a solver scope and stack the
backtrack point; the constraint is not asserted now. -/
def State.save_backtracking_point (s : State BVT BoolT BB IRV)
    (next_bb prev_bb : BB) (constraint : BoolT) : State BVT BoolT BB IRV :=
  { s with
    solver := s.solver.pushScope
    backtrack_points := ⟨next_bb, prev_bb, constraint⟩ :: s.backtrack_points }

/-- `State::revert_to_backtracking_point`: pop the newest backtrack point if
any, pop one solver scope, assert the saved constraint, and return the saved
block pair; `none` when the stack is empty.  The pair gives the returned value
and the state afterwards. -/
def State.revert_to_backtracking_point (s : State BVT BoolT BB IRV) :
    Option (BB × BB) × State BVT BoolT BB IRV :=
  match s.backtrack_points with
  | [] => (none, s)
  | bp :: rest =>
    (some (bp.next_bb, bp.prev_bb),
     { s with
       solver := s.solver.popScope.assertCond bp.constraint
       backtrack_points := rest })

/-- An LLVM `IntValue` operand as far as `operand_to_bool` inspects it: its
bit-width, and either a constant (with its zero-extended value) or a
non-constant value identified by an opaque handle. -/
inductive IRValue where
  | constVal (width : Nat) (value : Nat)
  | varVal (width : Nat) (tag : Nat)
deriving DecidableEq

/-- `IntValue::get_type().get_bit_width()`. -/
def IRValue.width : IRValue → Nat
  | .constVal w _ => w
  | .varVal w _ => w

/-- The fatal outcomes of the VarMap operations: the failed
`assert_eq!(v.get_type().get_bit_width(), 1)`, a lookup miss, and a
`BVorBool` sort mismatch. -/
inductive Fatal where
  | widthNotOne
  | missingKey
  | sortMismatch
deriving DecidableEq

/-- `State::operand_to_bool(v)`: require bit-width 1; a constant becomes
`Bool::from_bool(ctx, value != 0)` (the context's literal constructor is the
parameter `fromBool`); a non-constant is looked up in the VarMap and projected
to the Bool sort. -/
def State.operand_to_bool (fromBool : Bool → BoolT)
    (s : State BVT BoolT BB IRValue) (v : IRValue) : Except Fatal BoolT :=
  if v.width = 1 then
    match v with
    | .constVal _ value => .ok (fromBool (value != 0))
    | .varVal _ _ =>
      match s.lookupVar v with
      | some (.boolTerm b) => .ok b
      | some (.bv _) => .error .sortMismatch
      | none => .error .missingKey
  else .error .widthNotOne

/-- The State operations that touch the solver session or the VarMap, for
reasoning about arbitrary operation sequences. -/
inductive Op (BVT BoolT BB IRV : Type) where
  | assertOp (c : BoolT)
  | save (next_bb prev_bb : BB) (c : BoolT)
  | revert
  | checkWithExtra (conds : List BoolT)
  | addBvVar (v : IRV) (t : BVT)
  | addBoolVar (v : IRV) (t : BoolT)

/-- Apply one operation to a state (the value returned by `revert` or by the
checks is dropped; only the state evolution matters here). -/
def applyOp (sat : List BoolT → Bool) (s : State BVT BoolT BB IRV) :
    Op BVT BoolT BB IRV → State BVT BoolT BB IRV
  | .assertOp c => s.assertCond c
  | .save n p c => s.save_backtracking_point n p c
  | .revert => s.revert_to_backtracking_point.2
  | .checkWithExtra conds => (s.check_with_extra_constraints sat conds).2
  | .addBvVar v t => s.add_bv_var v t
  | .addBoolVar v t => s.add_bool_var v t

/-- Run a sequence of operations left to right. -/
def run (sat : List BoolT → Bool) (s : State BVT BoolT BB IRV)
    (ops : List (Op BVT BoolT BB IRV)) : State BVT BoolT BB IRV :=
  ops.foldl (fun st op => applyOp sat st op) s

/-- Number of `save_backtracking_point` calls in a sequence. -/
def cntSave (ops : List (Op BVT BoolT BB IRV)) : Nat :=
  ops.countP (fun op => match op with | .save _ _ _ => true | _ => false)

/-- Number of `revert_to_backtracking_point` calls in a sequence. -/
def cntRevert (ops : List (Op BVT BoolT BB IRV)) : Nat :=
  ops.countP (fun op => match op with | .revert => true | _ => false)

/-! Concrete fixtures (terms, blocks and IR values as natural-number tags)
used to evaluate the theorems below on explicit inputs. -/

/-- A `sat` verdict that accepts every constraint set. -/
def satT : List Nat → Bool := fun _ => true

/-- A `sat` verdict sensitive to the constraint set: whether term `0` was
asserted. -/
def satMem0 : List Nat → Bool := fun l => decide (0 ∈ l)

/-- `State::new` over the concrete tag types. -/
def stFresh : State Nat Nat Nat Nat := State.mk (Solver.mk [] []) [] []

/-- A balanced continuation: assert, then the matching revert. -/
def opsC1 : List (Op Nat Nat Nat Nat) := [Op.assertOp 9, Op.revert]

/-- A continuation with an inner balanced save/revert pair, never reverting
the outer backtrack point. -/
def opsC3 : List (Op Nat Nat Nat Nat) :=
  [Op.save 2 3 8, Op.assertOp 9, Op.revert]

/-! Helper lemmas about the solver session. -/

theorem Solver.assertCond_scopes_length (sv : Solver BoolT) (c : BoolT) :
    (sv.assertCond c).scopes.length = sv.scopes.length := by
  cases h : sv.scopes <;> simp [Solver.assertCond, h]

theorem Solver.allConstraints_assertCond (sv : Solver BoolT) (c : BoolT) :
    (sv.assertCond c).allConstraints = c :: sv.allConstraints := by
  cases h : sv.scopes <;> simp [Solver.assertCond, Solver.allConstraints, h]

theorem foldl_assertCond (cs : List BoolT) (b hd : List BoolT)
    (tl : List (List BoolT)) :
    cs.foldl (fun sv c => sv.assertCond c) (⟨b, hd :: tl⟩ : Solver BoolT)
      = ⟨b, (cs.reverse ++ hd) :: tl⟩ := by
  induction cs generalizing hd with
  | nil => simp
  | cons c cs ih =>
    rw [List.foldl_cons]
    have h1 : Solver.assertCond ⟨b, hd :: tl⟩ c = ⟨b, (c :: hd) :: tl⟩ := rfl
    rw [h1, ih]
    simp

/-- The scratch scope of `check_with_extra_constraints` restores the state
exactly, whatever `conds` holds (the empty list included). -/
theorem check_with_extra_state_eq (sat : List BoolT → Bool)
    (s : State BVT BoolT BB IRV) (conds : List BoolT) :
    (s.check_with_extra_constraints sat conds).2 = s := by
  simp [State.check_with_extra_constraints, Solver.pushScope, foldl_assertCond,
    Solver.popScope]

/-- The verdict of `check_with_extra_constraints` is the solver's verdict on
the current constraint set extended by `conds`. -/
theorem check_with_extra_verdict (sat : List BoolT → Bool)
    (s : State BVT BoolT BB IRV) (conds : List BoolT) :
    (s.check_with_extra_constraints sat conds).1
      = sat (conds.reverse ++ s.solver.allConstraints) := by
  simp [State.check_with_extra_constraints, Solver.pushScope, foldl_assertCond,
    Solver.checkSat, Solver.allConstraints]

theorem run_cons (sat : List BoolT → Bool) (s : State BVT BoolT BB IRV)
    (op : Op BVT BoolT BB IRV) (ops : List (Op BVT BoolT BB IRV)) :
    run sat s (op :: ops) = run sat (applyOp sat s op) ops := rfl

@[simp] theorem cntSave_nil : cntSave ([] : List (Op BVT BoolT BB IRV)) = 0 := rfl

@[simp] theorem cntRevert_nil : cntRevert ([] : List (Op BVT BoolT BB IRV)) = 0 := rfl

@[simp] theorem cntSave_cons_save (n p : BB) (c : BoolT)
    (ops : List (Op BVT BoolT BB IRV)) :
    cntSave (Op.save n p c :: ops) = cntSave ops + 1 := by
  simp [cntSave, List.countP_cons]

@[simp] theorem cntSave_cons_revert (ops : List (Op BVT BoolT BB IRV)) :
    cntSave (Op.revert :: ops) = cntSave ops := by
  simp [cntSave, List.countP_cons]

@[simp] theorem cntSave_cons_assertOp (c : BoolT) (ops : List (Op BVT BoolT BB IRV)) :
    cntSave (Op.assertOp c :: ops) = cntSave ops := by
  simp [cntSave, List.countP_cons]

@[simp] theorem cntSave_cons_checkWithExtra (conds : List BoolT)
    (ops : List (Op BVT BoolT BB IRV)) :
    cntSave (Op.checkWithExtra conds :: ops) = cntSave ops := by
  simp [cntSave, List.countP_cons]

@[simp] theorem cntSave_cons_addBvVar (v : IRV) (tv : BVT)
    (ops : List (Op BVT BoolT BB IRV)) :
    cntSave (Op.addBvVar v tv :: ops) = cntSave ops := by
  simp [cntSave, List.countP_cons]

@[simp] theorem cntSave_cons_addBoolVar (v : IRV) (tb : BoolT)
    (ops : List (Op BVT BoolT BB IRV)) :
    cntSave (Op.addBoolVar v tb :: ops) = cntSave ops := by
  simp [cntSave, List.countP_cons]

@[simp] theorem cntRevert_cons_save (n p : BB) (c : BoolT)
    (ops : List (Op BVT BoolT BB IRV)) :
    cntRevert (Op.save n p c :: ops) = cntRevert ops := by
  simp [cntRevert, List.countP_cons]

@[simp] theorem cntRevert_cons_revert (ops : List (Op BVT BoolT BB IRV)) :
    cntRevert (Op.revert :: ops) = cntRevert ops + 1 := by
  simp [cntRevert, List.countP_cons]

@[simp] theorem cntRevert_cons_assertOp (c : BoolT)
    (ops : List (Op BVT BoolT BB IRV)) :
    cntRevert (Op.assertOp c :: ops) = cntRevert ops := by
  simp [cntRevert, List.countP_cons]

@[simp] theorem cntRevert_cons_checkWithExtra (conds : List BoolT)
    (ops : List (Op BVT BoolT BB IRV)) :
    cntRevert (Op.checkWithExtra conds :: ops) = cntRevert ops := by
  simp [cntRevert, List.countP_cons]

@[simp] theorem cntRevert_cons_addBvVar (v : IRV) (tv : BVT)
    (ops : List (Op BVT BoolT BB IRV)) :
    cntRevert (Op.addBvVar v tv :: ops) = cntRevert ops := by
  simp [cntRevert, List.countP_cons]

@[simp] theorem cntRevert_cons_addBoolVar (v : IRV) (tb : BoolT)
    (ops : List (Op BVT BoolT BB IRV)) :
    cntRevert (Op.addBoolVar v tb :: ops) = cntRevert ops := by
  simp [cntRevert, List.countP_cons]

/-- Core lemma for balanced sequences.  Running a sequence whose reverts
exceed its saves by exactly one, and never exceed them on a proper prefix,
over a state whose top `tops` solver scopes line up with the top `mid ++ [bp]`
backtrack entries, lands exactly on the underlying solver `⟨b, scs⟩` with
`bp.constraint` asserted, and on the underlying backtrack stack. -/
theorem run_core (rest : List (Op BVT BoolT BB IRV)) :
    ∀ (sat : List BoolT → Bool) (b : List BoolT) (scs tops : List (List BoolT))
      (mid bps : List (BacktrackPoint BoolT BB))
      (vars : List (IRV × BVorBool BVT BoolT)) (bp : BacktrackPoint BoolT BB),
      tops.length = mid.length + 1 →
      (∀ i, i < rest.length →
        cntRevert (rest.take i) ≤ cntSave (rest.take i) + mid.length) →
      cntRevert rest = cntSave rest + mid.length + 1 →
      (run sat (State.mk (Solver.mk b (tops ++ scs)) vars (mid ++ bp :: bps))
          rest).solver = Solver.assertCond ⟨b, scs⟩ bp.constraint ∧
      (run sat (State.mk (Solver.mk b (tops ++ scs)) vars (mid ++ bp :: bps))
          rest).backtrack_points = bps := by
  induction rest with
  | nil =>
    intro sat b scs tops mid bps vars bp hlen hpre htot
    simp at htot
  | cons op rest ih =>
    intro sat b scs tops mid bps vars bp hlen hpre htot
    cases tops with
    | nil => simp at hlen
    | cons t ts =>
    cases op with
    | assertOp c =>
      have hstep :
          run sat (State.mk (Solver.mk b ((t :: ts) ++ scs)) vars
              (mid ++ bp :: bps)) (Op.assertOp c :: rest)
            = run sat (State.mk (Solver.mk b (((c :: t) :: ts) ++ scs)) vars
              (mid ++ bp :: bps)) rest := rfl
      rw [hstep]
      refine ih sat b scs ((c :: t) :: ts) mid bps vars bp (by simpa using hlen)
        ?_ ?_
      · intro i hi
        have h2 := hpre (i + 1) (by simpa using Nat.succ_lt_succ hi)
        simpa using h2
      · simpa using htot
    | save n2 p2 c2 =>
      have hstep :
          run sat (State.mk (Solver.mk b ((t :: ts) ++ scs)) vars
              (mid ++ bp :: bps)) (Op.save n2 p2 c2 :: rest)
            = run sat (State.mk (Solver.mk b (([] :: t :: ts) ++ scs)) vars
              ((⟨n2, p2, c2⟩ :: mid) ++ bp :: bps)) rest := rfl
      rw [hstep]
      refine ih sat b scs ([] :: t :: ts) (⟨n2, p2, c2⟩ :: mid) bps vars bp
        (by simp at hlen ⊢; omega) ?_ ?_
      · intro i hi
        have h2 := hpre (i + 1) (by simpa using Nat.succ_lt_succ hi)
        simp at h2 ⊢
        omega
      · have h2 := htot
        simp at h2 ⊢
        omega
    | checkWithExtra conds =>
      have h1 : applyOp sat (State.mk (Solver.mk b ((t :: ts) ++ scs)) vars
          (mid ++ bp :: bps)) (Op.checkWithExtra conds)
            = State.mk (Solver.mk b ((t :: ts) ++ scs)) vars (mid ++ bp :: bps) :=
        check_with_extra_state_eq sat _ conds
      rw [run_cons, h1]
      refine ih sat b scs (t :: ts) mid bps vars bp hlen ?_ ?_
      · intro i hi
        have h2 := hpre (i + 1) (by simpa using Nat.succ_lt_succ hi)
        simpa using h2
      · simpa using htot
    | addBvVar v tv =>
      have hstep :
          run sat (State.mk (Solver.mk b ((t :: ts) ++ scs)) vars
              (mid ++ bp :: bps)) (Op.addBvVar v tv :: rest)
            = run sat (State.mk (Solver.mk b ((t :: ts) ++ scs))
              ((v, .bv tv) :: vars) (mid ++ bp :: bps)) rest := rfl
      rw [hstep]
      refine ih sat b scs (t :: ts) mid bps ((v, .bv tv) :: vars) bp hlen ?_ ?_
      · intro i hi
        have h2 := hpre (i + 1) (by simpa using Nat.succ_lt_succ hi)
        simpa using h2
      · simpa using htot
    | addBoolVar v tb =>
      have hstep :
          run sat (State.mk (Solver.mk b ((t :: ts) ++ scs)) vars
              (mid ++ bp :: bps)) (Op.addBoolVar v tb :: rest)
            = run sat (State.mk (Solver.mk b ((t :: ts) ++ scs))
              ((v, .boolTerm tb) :: vars) (mid ++ bp :: bps)) rest := rfl
      rw [hstep]
      refine ih sat b scs (t :: ts) mid bps ((v, .boolTerm tb) :: vars) bp hlen
        ?_ ?_
      · intro i hi
        have h2 := hpre (i + 1) (by simpa using Nat.succ_lt_succ hi)
        simpa using h2
      · simpa using htot
    | revert =>
      cases mid with
      | nil =>
        have hts : ts = [] := by
          have h2 : ts.length = 0 := by simpa using hlen
          simpa using List.length_eq_zero.mp h2
        subst hts
        cases rest with
        | nil =>
          constructor <;> rfl
        | cons r rest2 =>
          exfalso
          have h2 := hpre 1 (by simp)
          simp at h2
      | cons bp2 mid2 =>
        cases ts with
        | nil => simp at hlen
        | cons t2 ts2 =>
          have hstep :
              run sat (State.mk (Solver.mk b ((t :: t2 :: ts2) ++ scs)) vars
                  ((bp2 :: mid2) ++ bp :: bps)) (Op.revert :: rest)
                = run sat (State.mk
                    (Solver.mk b (((bp2.constraint :: t2) :: ts2) ++ scs))
                    vars (mid2 ++ bp :: bps)) rest := rfl
          rw [hstep]
          refine ih sat b scs ((bp2.constraint :: t2) :: ts2) mid2 bps vars bp
            (by simp at hlen ⊢; omega) ?_ ?_
          · intro i hi
            have h2 := hpre (i + 1) (by simpa using Nat.succ_lt_succ hi)
            simp at h2 ⊢
            omega
          · have h2 := htot
            simp at h2 ⊢
            omega

/-- Frame lemma for a saved constraint.  So long as reverts never exceed
saves (on any prefix, the whole sequence included), the backtrack point
`⟨n, p, c⟩` sitting below the sequence's own `mid` entries is never popped, so
the run evolves the solver and the VarMap identically whatever constraint `c`
it stores. -/
theorem run_frame (rest : List (Op BVT BoolT BB IRV)) :
    ∀ (sat : List BoolT → Bool) (b : List BoolT) (scs tops : List (List BoolT))
      (mid bps : List (BacktrackPoint BoolT BB))
      (vars : List (IRV × BVorBool BVT BoolT)) (n p : BB) (c c2 : BoolT),
      tops.length = mid.length + 1 →
      (∀ i, i ≤ rest.length →
        cntRevert (rest.take i) ≤ cntSave (rest.take i) + mid.length) →
      ∃ tops2 mid2 vars2, tops2.length = mid2.length + 1 ∧
        run sat (State.mk (Solver.mk b (tops ++ scs)) vars
            (mid ++ ⟨n, p, c⟩ :: bps)) rest
          = State.mk (Solver.mk b (tops2 ++ scs)) vars2
            (mid2 ++ ⟨n, p, c⟩ :: bps) ∧
        run sat (State.mk (Solver.mk b (tops ++ scs)) vars
            (mid ++ ⟨n, p, c2⟩ :: bps)) rest
          = State.mk (Solver.mk b (tops2 ++ scs)) vars2
            (mid2 ++ ⟨n, p, c2⟩ :: bps) := by
  induction rest with
  | nil =>
    intro sat b scs tops mid bps vars n p c c2 hlen hpre
    exact ⟨tops, mid, vars, hlen, rfl, rfl⟩
  | cons op rest ih =>
    intro sat b scs tops mid bps vars n p c c2 hlen hpre
    cases tops with
    | nil => simp at hlen
    | cons t ts =>
    cases op with
    | assertOp a =>
      have hstep : ∀ (d : BoolT),
          run sat (State.mk (Solver.mk b ((t :: ts) ++ scs)) vars
              (mid ++ ⟨n, p, d⟩ :: bps)) (Op.assertOp a :: rest)
            = run sat (State.mk (Solver.mk b (((a :: t) :: ts) ++ scs)) vars
              (mid ++ ⟨n, p, d⟩ :: bps)) rest := fun _ => rfl
      rw [hstep c, hstep c2]
      refine ih sat b scs ((a :: t) :: ts) mid bps vars n p c c2
        (by simpa using hlen) ?_
      intro i hi
      have h2 := hpre (i + 1) (by simpa using Nat.succ_le_succ hi)
      simpa using h2
    | save n2 p2 a2 =>
      have hstep : ∀ (d : BoolT),
          run sat (State.mk (Solver.mk b ((t :: ts) ++ scs)) vars
              (mid ++ ⟨n, p, d⟩ :: bps)) (Op.save n2 p2 a2 :: rest)
            = run sat (State.mk (Solver.mk b (([] :: t :: ts) ++ scs)) vars
              ((⟨n2, p2, a2⟩ :: mid) ++ ⟨n, p, d⟩ :: bps)) rest := fun _ => rfl
      rw [hstep c, hstep c2]
      obtain ⟨tops2, mid2, vars2, hlen2, e1, e2⟩ :=
        ih sat b scs ([] :: t :: ts) (⟨n2, p2, a2⟩ :: mid) bps vars n p c c2
          (by simp at hlen ⊢; omega)
          (by
            intro i hi
            have h2 := hpre (i + 1) (by simpa using Nat.succ_le_succ hi)
            simp at h2 ⊢
            omega)
      exact ⟨tops2, mid2, vars2, hlen2, by simpa using e1, by simpa using e2⟩
    | checkWithExtra conds =>
      have hstep : ∀ (d : BoolT),
          run sat (State.mk (Solver.mk b ((t :: ts) ++ scs)) vars
              (mid ++ ⟨n, p, d⟩ :: bps)) (Op.checkWithExtra conds :: rest)
            = run sat (State.mk (Solver.mk b ((t :: ts) ++ scs)) vars
              (mid ++ ⟨n, p, d⟩ :: bps)) rest := by
        intro d
        rw [run_cons]
        have h1 : applyOp sat (State.mk (Solver.mk b ((t :: ts) ++ scs)) vars
            (mid ++ ⟨n, p, d⟩ :: bps)) (Op.checkWithExtra conds)
              = State.mk (Solver.mk b ((t :: ts) ++ scs)) vars
                (mid ++ ⟨n, p, d⟩ :: bps) :=
          check_with_extra_state_eq sat _ conds
        rw [h1]
      rw [hstep c, hstep c2]
      refine ih sat b scs (t :: ts) mid bps vars n p c c2 hlen ?_
      intro i hi
      have h2 := hpre (i + 1) (by simpa using Nat.succ_le_succ hi)
      simpa using h2
    | addBvVar v tv =>
      have hstep : ∀ (d : BoolT),
          run sat (State.mk (Solver.mk b ((t :: ts) ++ scs)) vars
              (mid ++ ⟨n, p, d⟩ :: bps)) (Op.addBvVar v tv :: rest)
            = run sat (State.mk (Solver.mk b ((t :: ts) ++ scs))
              ((v, .bv tv) :: vars) (mid ++ ⟨n, p, d⟩ :: bps)) rest :=
        fun _ => rfl
      rw [hstep c, hstep c2]
      refine ih sat b scs (t :: ts) mid bps ((v, .bv tv) :: vars) n p c c2
        hlen ?_
      intro i hi
      have h2 := hpre (i + 1) (by simpa using Nat.succ_le_succ hi)
      simpa using h2
    | addBoolVar v tb =>
      have hstep : ∀ (d : BoolT),
          run sat (State.mk (Solver.mk b ((t :: ts) ++ scs)) vars
              (mid ++ ⟨n, p, d⟩ :: bps)) (Op.addBoolVar v tb :: rest)
            = run sat (State.mk (Solver.mk b ((t :: ts) ++ scs))
              ((v, .boolTerm tb) :: vars) (mid ++ ⟨n, p, d⟩ :: bps)) rest :=
        fun _ => rfl
      rw [hstep c, hstep c2]
      refine ih sat b scs (t :: ts) mid bps ((v, .boolTerm tb) :: vars) n p c c2
        hlen ?_
      intro i hi
      have h2 := hpre (i + 1) (by simpa using Nat.succ_le_succ hi)
      simpa using h2
    | revert =>
      cases mid with
      | nil =>
        exfalso
        have h2 := hpre 1 (by simp)
        simp at h2
      | cons bp2 mid2 =>
        cases ts with
        | nil => simp at hlen
        | cons t2 ts2 =>
          have hstep : ∀ (d : BoolT),
              run sat (State.mk (Solver.mk b ((t :: t2 :: ts2) ++ scs)) vars
                  ((bp2 :: mid2) ++ ⟨n, p, d⟩ :: bps)) (Op.revert :: rest)
                = run sat (State.mk
                    (Solver.mk b (((bp2.constraint :: t2) :: ts2) ++ scs))
                    vars (mid2 ++ ⟨n, p, d⟩ :: bps)) rest := fun _ => rfl
          rw [hstep c, hstep c2]
          refine ih sat b scs ((bp2.constraint :: t2) :: ts2) mid2 bps vars
            n p c c2 (by simp at hlen ⊢; omega) ?_
          intro i hi
          have h2 := hpre (i + 1) (by simpa using Nat.succ_le_succ hi)
          simp at h2 ⊢
          omega

/-! Helper lemmas for `Project::get_func_by_name`. -/

/-- When no module in `ms` defines the name, the scan leaves `retval` alone. -/
theorem funcAux_all_none (name : String) (r : Option (Func × Module)) :
    ∀ ms : List Module, (∀ m ∈ ms, m.get_func_by_name name = none) →
      getFuncByNameAux name r ms = .ok r := by
  intro ms
  induction ms with
  | nil => intro _; rfl
  | cons m ms ih =>
    intro h
    have hm := h m (by simp)
    simp only [getFuncByNameAux, hm]
    exact ih (fun m2 hm2 => h m2 (by simp [hm2]))

/-- With a candidate already in hand, the scan panics at the first further
module defining the name, reporting the candidate's module and that module. -/
theorem funcAux_conflict (name : String) (f : Func) (m0 : Module) :
    ∀ (ms : List Module) (m1 : Module) (rest : List Module),
      ms.filter (fun m => (m.get_func_by_name name).isSome) = m1 :: rest →
      getFuncByNameAux name (some (f, m0)) ms = .error ⟨name, m0.name, m1.name⟩ := by
  intro ms
  induction ms with
  | nil => intro m1 rest h; simp at h
  | cons m ms ih =>
    intro m1 rest h
    cases hm : m.get_func_by_name name with
    | none =>
      rw [List.filter_cons] at h
      simp [hm] at h
      simp only [getFuncByNameAux, hm]
      exact ih m1 rest h
    | some f2 =>
      rw [List.filter_cons] at h
      simp [hm] at h
      simp only [getFuncByNameAux, hm]
      rw [h.1]

/-- Full characterization of the `get_func_by_name` scan on the list of
modules that define the name. -/
theorem funcAux_spec (name : String) :
    ∀ ms : List Module,
      (ms.filter (fun m => (m.get_func_by_name name).isSome) = [] →
        getFuncByNameAux name none ms = .ok none) ∧
      (∀ m f, ms.filter (fun m => (m.get_func_by_name name).isSome) = [m] →
        m.get_func_by_name name = some f →
        getFuncByNameAux name none ms = .ok (some (f, m))) ∧
      (∀ m1 m2 rest,
        ms.filter (fun m => (m.get_func_by_name name).isSome)
          = m1 :: m2 :: rest →
        getFuncByNameAux name none ms = .error ⟨name, m1.name, m2.name⟩) := by
  intro ms
  induction ms with
  | nil =>
    refine ⟨fun _ => rfl, ?_, ?_⟩
    · intro m f h; simp at h
    · intro m1 m2 rest h; simp at h
  | cons m ms ih =>
    cases hm : m.get_func_by_name name with
    | none =>
      refine ⟨?_, ?_, ?_⟩
      · intro h
        rw [List.filter_cons] at h
        simp [hm] at h
        simp only [getFuncByNameAux, hm]
        exact ih.1 (List.filter_eq_nil_iff.mpr (fun a ha => by simp [h a ha]))
      · intro m2 f h hf
        rw [List.filter_cons] at h
        simp [hm] at h
        simp only [getFuncByNameAux, hm]
        exact ih.2.1 m2 f h hf
      · intro m1 m2 rest h
        rw [List.filter_cons] at h
        simp [hm] at h
        simp only [getFuncByNameAux, hm]
        exact ih.2.2 m1 m2 rest h
    | some f0 =>
      refine ⟨?_, ?_, ?_⟩
      · intro h
        rw [List.filter_cons] at h
        simp [hm] at h
      · intro m2 f h hf
        rw [List.filter_cons] at h
        simp [hm] at h
        obtain ⟨hmm, hnil⟩ := h
        subst hmm
        simp only [getFuncByNameAux, hm]
        rw [funcAux_all_none name _ ms hnil]
        rw [hm] at hf
        cases hf
        rfl
      · intro m1 m2 rest h
        rw [List.filter_cons] at h
        simp [hm] at h
        obtain ⟨hmm, htail⟩ := h
        subst hmm
        simp only [getFuncByNameAux, hm]
        exact funcAux_conflict name f0 m ms m2 rest htail

/-! Helper lemmas for `Project::get_named_struct_type_by_name`. -/

/-- A reconciliation step from an existing candidate never clears it. -/
theorem structStep_some_ok (name : String) (m : Module)
    (r : Option LLVMType × Module) (t : Option LLVMType)
    (r2 : Option (Option LLVMType × Module))
    (h : structStep name (some r) m t = .ok r2) : ∃ r3, r2 = some r3 := by
  obtain ⟨rd, rmod⟩ := r
  cases rd with
  | none =>
    cases t with
    | none => exact ⟨_, by cases h; rfl⟩
    | some d => exact ⟨_, by cases h; rfl⟩
  | some def1 =>
    cases t with
    | none => exact ⟨_, by cases h; rfl⟩
    | some d =>
      simp only [structStep] at h
      split at h
      · exact ⟨_, by cases h; rfl⟩
      · split at h
        · exact ⟨_, by cases h; rfl⟩
        · split at h
          · exact ⟨_, by cases h; rfl⟩
          · cases h

/-- A reconciliation step lands on a concrete candidate whenever the previous
candidate was concrete or the new finding is concrete. -/
theorem structStep_ok_concrete (name : String) (m : Module) :
    ∀ (r : Option (Option LLVMType × Module)) (t : Option LLVMType)
      (r2 : Option (Option LLVMType × Module)),
      structStep name r m t = .ok r2 →
      ((∃ rd rm, r = some (some rd, rm)) ∨ (∃ d, t = some d)) →
      ∃ d2 m2, r2 = some (some d2, m2) := by
  intro r t r2 h hd
  cases r with
  | none =>
    cases t with
    | none =>
      exfalso
      rcases hd with ⟨rd, rm, hrd⟩ | ⟨d, hd2⟩
      · simp at hrd
      · simp at hd2
    | some d => cases h; exact ⟨d, m, rfl⟩
  | some r1 =>
    obtain ⟨rdef, rmod⟩ := r1
    cases rdef with
    | none =>
      cases t with
      | none =>
        exfalso
        rcases hd with ⟨rd, rm, hrd⟩ | ⟨d, hd2⟩
        · simp at hrd
        · simp at hd2
      | some d => cases h; exact ⟨d, m, rfl⟩
    | some def1 =>
      cases t with
      | none => cases h; exact ⟨def1, rmod, rfl⟩
      | some d =>
        simp only [structStep] at h
        split at h
        · cases h; exact ⟨def1, rmod, rfl⟩
        · split at h
          · cases h; exact ⟨d, m, rfl⟩
          · split at h
            · cases h; exact ⟨def1, rmod, rfl⟩
            · cases h

/-- Once a candidate exists, the scan can no longer return `None`. -/
theorem structAux_some_ne_ok_none (name : String) :
    ∀ (ms : List Module) (r : Option LLVMType × Module),
      getNamedStructAux name (some r) ms ≠ .ok none := by
  intro ms
  induction ms with
  | nil => intro r h; cases h
  | cons m ms ih =>
    intro r h
    cases hm : m.findNamedStruct name with
    | none =>
      simp only [getNamedStructAux, hm] at h
      exact ih r h
    | some t =>
      simp only [getNamedStructAux, hm] at h
      cases hs : structStep name (some r) m t with
      | error e => rw [hs] at h; cases h
      | ok r2 =>
        rw [hs] at h
        obtain ⟨r3, hr3⟩ := structStep_some_ok name m r t r2 hs
        subst hr3
        exact ih r3 h

/-- Modules in which the name does not occur leave the candidate alone. -/
theorem structAux_keep (name : String) :
    ∀ (ms : List Module) (r : Option (Option LLVMType × Module)),
      (∀ m ∈ ms, m.findNamedStruct name = none) →
      getNamedStructAux name r ms = .ok r := by
  intro ms
  induction ms with
  | nil => intro r _; rfl
  | cons m ms ih =>
    intro r h
    have hm := h m (by simp)
    simp only [getNamedStructAux, hm]
    exact ih r (fun m2 hm2 => h m2 (by simp [hm2]))

/-- An opaque candidate survives a scan in which every occurrence of the name
is opaque. -/
theorem structAux_opaque_run (name : String) (m0 : Module) :
    ∀ ms : List Module,
      (∀ m ∈ ms, ∀ t, m.findNamedStruct name = some t → t = none) →
      getNamedStructAux name (some (none, m0)) ms = .ok (some (none, m0)) := by
  intro ms
  induction ms with
  | nil => intro _; rfl
  | cons m ms ih =>
    intro h
    cases hm : m.findNamedStruct name with
    | none =>
      simp only [getNamedStructAux, hm]
      exact ih (fun m2 hm2 t ht => h m2 (by simp [hm2]) t ht)
    | some t =>
      have ht := h m (by simp) t hm
      subst ht
      simp only [getNamedStructAux, hm, structStep]
      exact ih (fun m2 hm2 t ht => h m2 (by simp [hm2]) t ht)

/-- A concrete candidate, or any concrete occurrence in the remaining modules,
forces any non-panicking scan result to be concrete. -/
theorem structAux_concrete (name : String) :
    ∀ (ms : List Module) (r x : Option (Option LLVMType × Module)),
      getNamedStructAux name r ms = .ok x →
      ((∃ rd rm, r = some (some rd, rm)) ∨
        (∃ m ∈ ms, ∃ d, m.findNamedStruct name = some (some d))) →
      ∃ d2 m2, x = some (some d2, m2) := by
  intro ms
  induction ms with
  | nil =>
    intro r x h hd
    cases h
    rcases hd with ⟨rd, rm, hrd⟩ | ⟨m, hm, _⟩
    · exact ⟨rd, rm, hrd⟩
    · simp at hm
  | cons m ms ih =>
    intro r x h hd
    cases hm : m.findNamedStruct name with
    | none =>
      simp only [getNamedStructAux, hm] at h
      refine ih r x h ?_
      rcases hd with hconc | ⟨m2, hm2, d, hd2⟩
      · exact Or.inl hconc
      · rcases List.mem_cons.mp hm2 with rfl | hm2tail
        · rw [hm] at hd2; cases hd2
        · exact Or.inr ⟨m2, hm2tail, d, hd2⟩
    | some t =>
      simp only [getNamedStructAux, hm] at h
      cases hs : structStep name r m t with
      | error e => rw [hs] at h; cases h
      | ok r2 =>
        rw [hs] at h
        rcases hd with hconc | ⟨m2, hm2, d, hd2⟩
        · have hr2 := structStep_ok_concrete name m r t r2 hs (Or.inl hconc)
          obtain ⟨d2, mm2, hr2⟩ := hr2
          exact ih r2 x h (Or.inl ⟨d2, mm2, hr2⟩)
        · rcases List.mem_cons.mp hm2 with heq | hm2tail
          · rw [heq, hm] at hd2
            have ht : t = some d := by injection hd2
            have hr2 := structStep_ok_concrete name m r t r2 hs
              (Or.inr ⟨d, ht⟩)
            obtain ⟨d2, mm2, hr2b⟩ := hr2
            exact ih r2 x h (Or.inl ⟨d2, mm2, hr2b⟩)
          · exact ih r2 x h (Or.inr ⟨m2, hm2tail, d, hd2⟩)

/-- When the name occurs somewhere and every occurrence is opaque, the scan
returns the opaque candidate from the first module containing the name. -/
theorem structAux_all_opaque (name : String) :
    ∀ ms : List Module,
      (∀ m ∈ ms, ∀ t, m.findNamedStruct name = some t → t = none) →
      (∃ m ∈ ms, (m.findNamedStruct name).isSome) →
      ∃ mod, getNamedStructAux name none ms = .ok (some (none, mod)) := by
  intro ms
  induction ms with
  | nil => intro _ hex; simp at hex
  | cons m ms ih =>
    intro h hex
    cases hm : m.findNamedStruct name with
    | some t =>
      have ht := h m (by simp) t hm
      subst ht
      refine ⟨m, ?_⟩
      simp only [getNamedStructAux, hm, structStep]
      exact structAux_opaque_run name m ms
        (fun m2 hm2 t ht => h m2 (by simp [hm2]) t ht)
    | none =>
      simp only [getNamedStructAux, hm]
      refine ih (fun m2 hm2 t ht => h m2 (by simp [hm2]) t ht) ?_
      rcases hex with ⟨m2, hm2, hsome⟩
      rcases List.mem_cons.mp hm2 with rfl | hm2tail
      · rw [hm] at hsome; cases hsome
      · exact ⟨m2, hm2tail, hsome⟩

/-- The scan returns `None` exactly when the name occurs in no module. -/
theorem structAux_ok_none_iff (name : String) :
    ∀ ms : List Module,
      getNamedStructAux name none ms = .ok none ↔
        ∀ m ∈ ms, m.findNamedStruct name = none := by
  intro ms
  constructor
  · induction ms with
    | nil => intro _ m hm; simp at hm
    | cons m ms ih =>
      intro h m2 hm2
      cases hm : m.findNamedStruct name with
      | none =>
        simp only [getNamedStructAux, hm] at h
        rcases List.mem_cons.mp hm2 with rfl | hm2tail
        · exact hm
        · exact ih h m2 hm2tail
      | some t =>
        exfalso
        simp only [getNamedStructAux, hm, structStep] at h
        exact structAux_some_ne_ok_none name ms (t, m) h
  · intro h
    exact structAux_keep name ms none h

/-- Lifting `foldl` of `State.assertCond` to the solver component. -/
theorem foldl_state_assertCond (cs : List BoolT) (s : State BVT BoolT BB IRV) :
    cs.foldl (fun st d => st.assertCond d) s
      = { s with solver := cs.foldl (fun sv d => sv.assertCond d) s.solver } := by
  induction cs generalizing s with
  | nil => simp
  | cons c cs ih =>
    rw [List.foldl_cons, List.foldl_cons]
    exact ih (s.assertCond c)

/-- Each operation preserves the scope-count = stack-depth invariant. -/
theorem applyOp_depth (sat : List BoolT → Bool) (s : State BVT BoolT BB IRV)
    (op : Op BVT BoolT BB IRV)
    (h : s.solver.scopes.length = s.backtrack_points.length) :
    (applyOp sat s op).solver.scopes.length
      = (applyOp sat s op).backtrack_points.length := by
  cases op with
  | assertOp c =>
    simpa [applyOp, State.assertCond, Solver.assertCond_scopes_length] using h
  | save n p c =>
    simp [applyOp, State.save_backtracking_point, Solver.pushScope]
    exact h
  | revert =>
    cases hb : s.backtrack_points with
    | nil =>
      simp only [applyOp, State.revert_to_backtracking_point, hb]
      simpa [hb] using h
    | cons bp rest =>
      rw [hb] at h
      simp at h
      simp [applyOp, State.revert_to_backtracking_point, hb,
        Solver.assertCond_scopes_length, Solver.popScope]
      omega
  | checkWithExtra conds =>
    have h1 : applyOp sat s (Op.checkWithExtra conds) = s :=
      check_with_extra_state_eq sat s conds
    rw [h1]
    exact h
  | addBvVar v tv => exact h
  | addBoolVar v tb => exact h

/-- C2: `revert_to_backtracking_point` on a state with a non-empty backtrack
stack pops the top entry and one solver scope (discarding every constraint
asserted since the matching `save_backtracking_point`), asserts the saved
constraint at the newly current scope, and returns the saved
`(next_bb, prev_bb)` pair; on an empty stack it returns `none` and leaves the
state alone. -/
theorem claim_C2_revert_semantics (s : State BVT BoolT BB IRV) :
    (s.backtrack_points = [] → s.revert_to_backtracking_point = (none, s)) ∧
    (∀ bp rest, s.backtrack_points = bp :: rest →
      s.revert_to_backtracking_point
        = (some (bp.next_bb, bp.prev_bb),
           { s with solver := s.solver.popScope.assertCond bp.constraint,
                    backtrack_points := rest })) ∧
    (∀ (n p : BB) (c : BoolT) (cs : List BoolT),
      (cs.foldl (fun st d => st.assertCond d)
          (s.save_backtracking_point n p c)).revert_to_backtracking_point
        = (some (n, p), { s with solver := s.solver.assertCond c })) := by
  refine ⟨?_, ?_, ?_⟩
  · intro h
    simp [State.revert_to_backtracking_point, h]
  · intro bp rest h
    simp [State.revert_to_backtracking_point, h]
  · intro n p c cs
    rw [foldl_state_assertCond]
    simp [State.save_backtracking_point, Solver.pushScope, foldl_assertCond,
      State.revert_to_backtracking_point, Solver.popScope]

theorem claim_C2_witness :
    ((State.mk (Solver.mk [] []) [] [] : State Nat Nat Nat Nat).backtrack_points
        = [] ∧
      (State.mk (Solver.mk [] []) [] []
          : State Nat Nat Nat Nat).revert_to_backtracking_point
        = (none, State.mk (Solver.mk [] []) [] [])) ∧
    (State.mk (Solver.mk [1] [[2]]) [] [⟨5, 6, 9⟩]
        : State Nat Nat Nat Nat).revert_to_backtracking_point
      = (some (5, 6), State.mk (Solver.mk [9, 1] []) [] []) := by
  refine ⟨⟨rfl, (claim_C2_revert_semantics _).1 rfl⟩, ?_⟩
  have h := (claim_C2_revert_semantics
    (State.mk (Solver.mk [1] [[2]]) [] [⟨5, 6, 9⟩] : State Nat Nat Nat Nat)).2.1
    ⟨5, 6, 9⟩ [] rfl
  simpa using h

/-- C4: `check_with_extra_constraints(conds)` pushes a scratch scope, asserts
each term of `conds` in order, checks the extended constraint set, and pops
the scratch scope (also when `conds` is empty), restoring the state exactly:
the long-lived constraint set is unaltered and a `check()` immediately after
the call is satisfiable iff a `check()` immediately before was. -/
theorem claim_C4_check_with_extra_frame (sat : List BoolT → Bool)
    (s : State BVT BoolT BB IRV) (conds : List BoolT) :
    (s.check_with_extra_constraints sat conds).2 = s ∧
    State.check sat (s.check_with_extra_constraints sat conds).2
      = State.check sat s ∧
    (s.check_with_extra_constraints sat conds).1
      = sat (conds.reverse ++ s.solver.allConstraints) := by
  refine ⟨check_with_extra_state_eq sat s conds, ?_,
    check_with_extra_verdict sat s conds⟩
  rw [check_with_extra_state_eq]

/-- C5: after any sequence of State operations, the number of pending solver
scopes (pushes not yet popped) still equals the depth of the backtrack stack,
provided it did initially (as it does for `State::new`). -/
theorem claim_C5_scope_stack_invariant (sat : List BoolT → Bool)
    (s : State BVT BoolT BB IRV) (ops : List (Op BVT BoolT BB IRV))
    (h : s.solver.scopes.length = s.backtrack_points.length) :
    (run sat s ops).solver.scopes.length
      = (run sat s ops).backtrack_points.length := by
  induction ops generalizing s with
  | nil => exact h
  | cons op ops ih =>
    rw [run_cons]
    exact ih _ (applyOp_depth sat s op h)

theorem claim_C5_witness :
    (State.mk (Solver.mk [] []) [] []
        : State Nat Nat Nat Nat).solver.scopes.length
      = (State.mk (Solver.mk [] []) [] []
        : State Nat Nat Nat Nat).backtrack_points.length ∧
    (run (fun _ => true)
        (State.mk (Solver.mk [] []) [] [] : State Nat Nat Nat Nat)
        [Op.save 0 1 5, Op.assertOp 7, Op.save 2 3 8, Op.revert,
          Op.checkWithExtra [4], Op.revert,
          Op.revert]).solver.scopes.length
      = (run (fun _ => true)
        (State.mk (Solver.mk [] []) [] [] : State Nat Nat Nat Nat)
        [Op.save 0 1 5, Op.assertOp 7, Op.save 2 3 8, Op.revert,
          Op.checkWithExtra [4], Op.revert,
          Op.revert]).backtrack_points.length :=
  ⟨rfl, claim_C5_scope_stack_invariant (fun _ => true) _ _ rfl⟩

/-- C1 (counterexample): a sequence with as many reverts as saves does NOT
leave the constraint set as it was before the first save — the final revert
asserts the saved constraint at the restored scope.  Starting from a fresh
state, `save(0, 1, 5); revert()` leaves the constraint set holding the saved
constraint `5`, which was not there before. -/
theorem claim_C1_counterexample :
    cntRevert ([Op.save 0 1 5, Op.revert] : List (Op Nat Nat Nat Nat))
        = cntSave ([Op.save 0 1 5, Op.revert] : List (Op Nat Nat Nat Nat)) ∧
    (run (fun _ => true)
        (State.mk (Solver.mk [] []) [] [] : State Nat Nat Nat Nat)
        [Op.save 0 1 5, Op.revert]).solver.allConstraints
      ≠ (State.mk (Solver.mk [] []) [] []
        : State Nat Nat Nat Nat).solver.allConstraints ∧
    (5 : Nat) ∈ (run (fun _ => true)
        (State.mk (Solver.mk [] []) [] [] : State Nat Nat Nat Nat)
        [Op.save 0 1 5, Op.revert]).solver.allConstraints ∧
    (5 : Nat) ∉ (State.mk (Solver.mk [] []) [] []
        : State Nat Nat Nat Nat).solver.allConstraints := by
  refine ⟨rfl, ?_, ?_, ?_⟩ <;> decide

/-- C1 (amended): after a sequence beginning with a `save_backtracking_point`
whose matching `revert_to_backtracking_point` balances it at the end (reverts
never exceeding saves on any proper prefix of the remainder, and exceeding
them by exactly one overall, so the whole sequence has as many reverts as
saves), the solver's constraint set is exactly what it was before the first
save, extended by that save's deferred constraint — which the final revert
asserted; every other constraint asserted during the sequence is discarded,
and the backtrack stack is as before the first save. -/
theorem claim_C1_scope_balance_amended (sat : List BoolT → Bool)
    (s : State BVT BoolT BB IRV) (n p : BB) (c : BoolT)
    (rest : List (Op BVT BoolT BB IRV))
    (hpre : ∀ i, i < rest.length →
      cntRevert (rest.take i) ≤ cntSave (rest.take i))
    (htot : cntRevert rest = cntSave rest + 1) :
    cntRevert (Op.save n p c :: rest) = cntSave (Op.save n p c :: rest) ∧
    (run sat s (Op.save n p c :: rest)).solver.allConstraints
      = c :: s.solver.allConstraints ∧
    (run sat s (Op.save n p c :: rest)).solver = s.solver.assertCond c ∧
    (run sat s (Op.save n p c :: rest)).backtrack_points
      = s.backtrack_points := by
  have hcore := run_core rest sat s.solver.base s.solver.scopes [[]] []
    s.backtrack_points s.vars ⟨n, p, c⟩ (by simp)
    (by simpa using hpre) (by simpa using htot)
  have hrun : run sat s (Op.save n p c :: rest)
      = run sat (State.mk (Solver.mk s.solver.base ([[]] ++ s.solver.scopes))
        s.vars ([] ++ (⟨n, p, c⟩ : BacktrackPoint BoolT BB)
          :: s.backtrack_points)) rest := rfl
  refine ⟨by simp [htot], ?_, ?_, ?_⟩
  · rw [hrun, hcore.1, Solver.allConstraints_assertCond]
  · rw [hrun]; exact hcore.1
  · rw [hrun]; exact hcore.2

theorem claim_C1_witness :
    (∀ i, i < opsC1.length →
      cntRevert (opsC1.take i) ≤ cntSave (opsC1.take i)) ∧
    cntRevert opsC1 = cntSave opsC1 + 1 ∧
    (run satT stFresh (Op.save 0 1 7 :: opsC1)).solver.allConstraints
      = 7 :: stFresh.solver.allConstraints :=
  ⟨by decide, by decide,
    (claim_C1_scope_balance_amended satT stFresh 0 1 7 opsC1
      (by decide) (by decide)).2.1⟩

/-- C3: `save_backtracking_point` does not assert its constraint — the
constraint set, and hence the `check()` verdict, is unchanged by the call; and
for any further operations during which the corresponding revert never
executes (reverts never exceeding saves on any prefix), the solver evolves
identically whatever constraint the save stored, so satisfiability remains
unaffected by the saved constraint. -/
theorem claim_C3_deferred_constraint (sat : List BoolT → Bool)
    (s : State BVT BoolT BB IRV) (n p : BB) (c : BoolT) :
    State.check sat (s.save_backtracking_point n p c) = State.check sat s ∧
    (s.save_backtracking_point n p c).solver.allConstraints
      = s.solver.allConstraints ∧
    (∀ (rest : List (Op BVT BoolT BB IRV)) (c2 : BoolT),
      (∀ i, i ≤ rest.length →
        cntRevert (rest.take i) ≤ cntSave (rest.take i)) →
      (run sat (s.save_backtracking_point n p c) rest).solver
          = (run sat (s.save_backtracking_point n p c2) rest).solver ∧
        State.check sat (run sat (s.save_backtracking_point n p c) rest)
          = State.check sat (run sat (s.save_backtracking_point n p c2) rest)) := by
  refine ⟨?_, ?_, ?_⟩
  · simp [State.check, Solver.checkSat, State.save_backtracking_point,
      Solver.pushScope, Solver.allConstraints]
  · simp [State.save_backtracking_point, Solver.pushScope,
      Solver.allConstraints]
  · intro rest c2 hpre
    obtain ⟨tops2, mid2, vars2, hlen2, e1, e2⟩ :=
      run_frame rest sat s.solver.base s.solver.scopes [[]] []
        s.backtrack_points s.vars n p c c2 (by simp) (by simpa using hpre)
    have h1 : run sat (s.save_backtracking_point n p c) rest
        = State.mk (Solver.mk s.solver.base (tops2 ++ s.solver.scopes)) vars2
          (mid2 ++ (⟨n, p, c⟩ : BacktrackPoint BoolT BB)
            :: s.backtrack_points) := e1
    have h2 : run sat (s.save_backtracking_point n p c2) rest
        = State.mk (Solver.mk s.solver.base (tops2 ++ s.solver.scopes)) vars2
          (mid2 ++ (⟨n, p, c2⟩ : BacktrackPoint BoolT BB)
            :: s.backtrack_points) := e2
    rw [h1, h2]
    exact ⟨rfl, rfl⟩

theorem claim_C3_witness :
    (∀ i, i ≤ opsC3.length →
      cntRevert (opsC3.take i) ≤ cntSave (opsC3.take i)) ∧
    (run satMem0 (stFresh.save_backtracking_point 0 1 3) opsC3).solver
      = (run satMem0 (stFresh.save_backtracking_point 0 1 4) opsC3).solver :=
  ⟨by decide,
    ((claim_C3_deferred_constraint satMem0 stFresh 0 1 3).2.2
      opsC3 4 (by decide)).1⟩

/-- The named-struct scan decomposes over list append, with the panic
propagating. -/
theorem structAux_append (name : String) :
    ∀ (l1 l2 : List Module) (r : Option (Option LLVMType × Module)),
      getNamedStructAux name r (l1 ++ l2)
        = (getNamedStructAux name r l1).bind
            (fun r2 => getNamedStructAux name r2 l2) := by
  intro l1
  induction l1 with
  | nil => intro l2 r; rfl
  | cons m l1 ih =>
    intro l2 r
    cases hm : m.findNamedStruct name with
    | none =>
      rw [List.cons_append]
      simp only [getNamedStructAux, hm]
      exact ih l2 r
    | some t =>
      rw [List.cons_append]
      simp only [getNamedStructAux, hm]
      cases hs : structStep name r m t with
      | error e => rfl
      | ok r2 => exact ih l2 r2

/-- C6: when the current candidate `def1` (found in `retmod`, after scanning
`pre`) and a newly encountered definition `def2` in module `m` are both
concrete, the lookup retains the candidate if they are structurally equal,
replaces it when the candidate's element list is empty, retains it when the
new definition's element list is empty, and otherwise panics, reporting both
modules and both definitions. -/
theorem claim_C6_concrete_reconciliation (p : Project) (name : String)
    (pre post : List Module) (m retmod : Module) (def1 def2 : LLVMType)
    (hmods : p.modules = pre ++ m :: post)
    (hpre : getNamedStructAux name none pre = .ok (some (some def1, retmod)))
    (hfind : m.findNamedStruct name = some (some def2)) :
    (def1 = def2 →
      p.get_named_struct_type_by_name name
        = getNamedStructAux name (some (some def1, retmod)) post) ∧
    (def1 ≠ def2 → isEmptyStruct def1 = true →
      p.get_named_struct_type_by_name name
        = getNamedStructAux name (some (some def2, m)) post) ∧
    (def1 ≠ def2 → isEmptyStruct def1 = false → isEmptyStruct def2 = true →
      p.get_named_struct_type_by_name name
        = getNamedStructAux name (some (some def1, retmod)) post) ∧
    (def1 ≠ def2 → isEmptyStruct def1 = false → isEmptyStruct def2 = false →
      p.get_named_struct_type_by_name name
        = .error ⟨name, retmod.name, m.name, def1, def2⟩) := by
  have hsplit : p.get_named_struct_type_by_name name
      = getNamedStructAux name (some (some def1, retmod)) (m :: post) := by
    rw [Project.get_named_struct_type_by_name, hmods,
      structAux_append name pre (m :: post) none, hpre]
    rfl
  refine ⟨?_, ?_, ?_, ?_⟩
  · intro heq
    have hstep : structStep name (some (some def1, retmod)) m (some def2)
        = .ok (some (some def1, retmod)) := by
      simp only [structStep, if_pos heq]
    rw [hsplit]
    simp only [getNamedStructAux, hfind, hstep]
  · intro hne he1
    have hstep : structStep name (some (some def1, retmod)) m (some def2)
        = .ok (some (some def2, m)) := by
      simp only [structStep, if_neg hne, if_pos he1]
    rw [hsplit]
    simp only [getNamedStructAux, hfind, hstep]
  · intro hne he1 he2
    have hstep : structStep name (some (some def1, retmod)) m (some def2)
        = .ok (some (some def1, retmod)) := by
      simp only [structStep, if_neg hne, he1, if_pos he2]
      simp
    rw [hsplit]
    simp only [getNamedStructAux, hfind, hstep]
  · intro hne he1 he2
    have hstep : structStep name (some (some def1, retmod)) m (some def2)
        = .error ⟨name, retmod.name, m.name, def1, def2⟩ := by
      simp only [structStep, if_neg hne, he1, he2]
      simp
    rw [hsplit]
    simp only [getNamedStructAux, hfind, hstep]

theorem claim_C6_witness :
    (Project.mk
        [Module.mk "m1" [] [("S", some (LLVMType.structType [1] false))],
          Module.mk "m2" [] [("S", some (LLVMType.structType [2] false))]]
      ).get_named_struct_type_by_name "S"
      = .error ⟨"S", "m1", "m2", LLVMType.structType [1] false,
          LLVMType.structType [2] false⟩ :=
  (claim_C6_concrete_reconciliation _ "S"
    [Module.mk "m1" [] [("S", some (LLVMType.structType [1] false))]] []
    (Module.mk "m2" [] [("S", some (LLVMType.structType [2] false))])
    (Module.mk "m1" [] [("S", some (LLVMType.structType [1] false))])
    (LLVMType.structType [1] false) (LLVMType.structType [2] false)
    rfl (by rfl) (by rfl)).2.2.2 (by decide) (by decide) (by decide)

/-- C7: the named-struct lookup takes the first definition found in module
insertion order as candidate; an opaque definition found while any candidate
exists is ignored; a concrete definition replaces an opaque candidate; the
returned definition is absent (opaque) iff the name occurs somewhere and
every occurrence is opaque; and the lookup returns `None` iff no module
contains the name. -/
theorem claim_C7_opaque_reconciliation (p : Project) (name : String) :
    (p.get_named_struct_type_by_name name = .ok none ↔
      ∀ m ∈ p.modules, m.findNamedStruct name = none) ∧
    ((∃ mod, p.get_named_struct_type_by_name name = .ok (some (none, mod))) ↔
      ((∃ m ∈ p.modules, (m.findNamedStruct name).isSome = true) ∧
        (∀ m ∈ p.modules, ∀ t, m.findNamedStruct name = some t → t = none))) ∧
    (∀ (m : Module) (ms : List Module) (t : Option LLVMType),
      m.findNamedStruct name = some t →
      getNamedStructAux name none (m :: ms)
        = getNamedStructAux name (some (t, m)) ms) ∧
    (∀ (r : Option LLVMType × Module) (m : Module),
      structStep name (some r) m none = .ok (some r)) ∧
    (∀ (mod0 m : Module) (d : LLVMType),
      structStep name (some (none, mod0)) m (some d)
        = .ok (some (some d, m))) := by
  refine ⟨structAux_ok_none_iff name p.modules, ⟨?_, ?_⟩, ?_, ?_, ?_⟩
  · rintro ⟨mod, hmod⟩
    constructor
    · by_contra hno
      have hall : ∀ m ∈ p.modules, m.findNamedStruct name = none := by
        intro m hm
        cases hf : m.findNamedStruct name with
        | none => rfl
        | some t => exact absurd ⟨m, hm, by simp [hf]⟩ hno
      have h1 := structAux_keep name p.modules none hall
      rw [Project.get_named_struct_type_by_name] at hmod
      rw [h1] at hmod
      cases hmod
    · intro m hm t ht
      cases t with
      | none => rfl
      | some d =>
        exfalso
        rw [Project.get_named_struct_type_by_name] at hmod
        obtain ⟨d2, m2, hx⟩ := structAux_concrete name p.modules none _ hmod
          (Or.inr ⟨m, hm, d, ht⟩)
        rw [hx] at hmod
        simp at hx
  · rintro ⟨⟨m, hm, hsome⟩, hopq⟩
    exact structAux_all_opaque name p.modules hopq ⟨m, hm, hsome⟩
  · intro m ms t ht
    simp only [getNamedStructAux, ht, structStep]
  · intro r m
    obtain ⟨rd, rmod⟩ := r
    cases rd <;> rfl
  · intro mod0 m d
    rfl

theorem claim_C7_witness :
    ((Project.mk [Module.mk "b" [] []]).get_named_struct_type_by_name "S"
        = .ok none) ∧
    (getNamedStructAux "S" none [Module.mk "a" [] [("S", none)]]
      = getNamedStructAux "S" (some (none, Module.mk "a" [] [("S", none)])) []) ∧
    (∃ mod, (Project.mk
        [Module.mk "a" [] [("S", none)], Module.mk "b" [] [("S", none)]]
      ).get_named_struct_type_by_name "S" = .ok (some (none, mod))) := by
  refine ⟨(claim_C7_opaque_reconciliation _ "S").1.mpr ?_,
    (claim_C7_opaque_reconciliation (Project.mk []) "S").2.2.1
      (Module.mk "a" [] [("S", none)]) [] none (by rfl),
    (claim_C7_opaque_reconciliation _ "S").2.1.mpr ⟨?_, ?_⟩⟩
  · intro m hm
    simp at hm
    subst hm
    rfl
  · exact ⟨Module.mk "a" [] [("S", none)], by simp, by rfl⟩
  · intro m hm t ht
    simp at hm
    rcases hm with rfl | rfl
    · have h1 : (Module.mk "a" [] [("S", none)]).findNamedStruct "S"
          = some none := rfl
      rw [h1] at ht
      cases ht
      rfl
    · have h1 : (Module.mk "b" [] [("S", none)]).findNamedStruct "S"
          = some none := rfl
      rw [h1] at ht
      cases ht
      rfl

/-- C8: if two modules each define a function of the given name,
`get_func_by_name` panics, reporting both module names (the first two defining
modules in insertion order); otherwise it returns the unique
`(function, module)` pair when exactly one module defines the name, and `None`
when no module does. -/
theorem claim_C8_function_uniqueness (p : Project) (name : String) :
    (p.modules.filter (fun m => (m.get_func_by_name name).isSome) = [] →
      p.get_func_by_name name = .ok none) ∧
    (∀ m f, p.modules.filter (fun m => (m.get_func_by_name name).isSome) = [m] →
      m.get_func_by_name name = some f →
      p.get_func_by_name name = .ok (some (f, m))) ∧
    (∀ m1 m2 rest,
      p.modules.filter (fun m => (m.get_func_by_name name).isSome)
        = m1 :: m2 :: rest →
      p.get_func_by_name name = .error ⟨name, m1.name, m2.name⟩) :=
  funcAux_spec name p.modules

theorem claim_C8_witness :
    ((Project.mk [Module.mk "x" [Func.mk "f" 0] [],
          Module.mk "y" [Func.mk "f" 1] []]).get_func_by_name "f"
        = .error ⟨"f", "x", "y"⟩) ∧
    ((Project.mk [Module.mk "x" [Func.mk "f" 0] []]).get_func_by_name "f"
        = .ok (some (Func.mk "f" 0, Module.mk "x" [Func.mk "f" 0] []))) ∧
    ((Project.mk [Module.mk "y" [Func.mk "f" 1] []]).get_func_by_name "g"
        = .ok none) :=
  ⟨(claim_C8_function_uniqueness
      (Project.mk [Module.mk "x" [Func.mk "f" 0] [],
        Module.mk "y" [Func.mk "f" 1] []]) "f").2.2
      (Module.mk "x" [Func.mk "f" 0] []) (Module.mk "y" [Func.mk "f" 1] [])
      [] (by rfl),
    (claim_C8_function_uniqueness
      (Project.mk [Module.mk "x" [Func.mk "f" 0] []]) "f").2.1
      (Module.mk "x" [Func.mk "f" 0] []) (Func.mk "f" 0) (by rfl) (by rfl),
    (claim_C8_function_uniqueness
      (Project.mk [Module.mk "y" [Func.mk "f" 1] []]) "g").1 (by rfl)⟩

/-- C9: `operand_to_bool` is fatal on any value whose bit-width is not 1; on a
width-1 constant it yields the boolean literal of `value != 0` (false for 0,
true for any nonzero value); on a non-constant width-1 value it returns the
previously bound boolean term. -/
theorem claim_C9_operand_to_bool (fromBool : Bool → BoolT)
    (s : State BVT BoolT BB IRValue) (v : IRValue) :
    (v.width ≠ 1 →
      s.operand_to_bool fromBool v = .error .widthNotOne) ∧
    (∀ value, v = .constVal 1 value →
      s.operand_to_bool fromBool v = .ok (fromBool (value != 0))) ∧
    (∀ value, v = .constVal 1 value → value = 0 →
      s.operand_to_bool fromBool v = .ok (fromBool false)) ∧
    (∀ value, v = .constVal 1 value → value ≠ 0 →
      s.operand_to_bool fromBool v = .ok (fromBool true)) ∧
    (∀ tag b, v = .varVal 1 tag → s.lookupVar v = some (.boolTerm b) →
      s.operand_to_bool fromBool v = .ok b) := by
  refine ⟨?_, ?_, ?_, ?_, ?_⟩
  · intro hw
    simp [State.operand_to_bool, hw]
  · intro value hv
    subst hv
    simp [State.operand_to_bool, IRValue.width]
  · intro value hv hz
    subst hv
    subst hz
    simp [State.operand_to_bool, IRValue.width]
  · intro value hv hz
    subst hv
    have hb : (value != 0) = true := by simpa using hz
    simp [State.operand_to_bool, IRValue.width, hb]
  · intro tag b hv hb
    subst hv
    simp [State.operand_to_bool, IRValue.width, hb]

theorem claim_C9_witness :
    ((IRValue.constVal 8 0).width ≠ 1 ∧
      (State.mk (Solver.mk [] [])
          [(IRValue.varVal 1 3, BVorBool.boolTerm 42)] []
        : State Nat Nat Nat IRValue).operand_to_bool
          (fun b => if b then 1 else 0) (IRValue.constVal 8 0)
        = .error .widthNotOne) ∧
    ((State.mk (Solver.mk [] [])
        [(IRValue.varVal 1 3, BVorBool.boolTerm 42)] []
      : State Nat Nat Nat IRValue).operand_to_bool
        (fun b => if b then 1 else 0) (IRValue.constVal 1 0) = .ok 0) ∧
    ((State.mk (Solver.mk [] [])
        [(IRValue.varVal 1 3, BVorBool.boolTerm 42)] []
      : State Nat Nat Nat IRValue).operand_to_bool
        (fun b => if b then 1 else 0) (IRValue.constVal 1 1) = .ok 1) ∧
    ((State.mk (Solver.mk [] [])
        [(IRValue.varVal 1 3, BVorBool.boolTerm 42)] []
      : State Nat Nat Nat IRValue).operand_to_bool
        (fun b => if b then 1 else 0) (IRValue.varVal 1 3) = .ok 42) :=
  ⟨⟨by decide,
    (claim_C9_operand_to_bool (fun b => if b then 1 else 0) _
      (IRValue.constVal 8 0)).1 (by decide)⟩,
   (claim_C9_operand_to_bool (fun b => if b then 1 else 0) _
      (IRValue.constVal 1 0)).2.2.1 0 rfl rfl,
   (claim_C9_operand_to_bool (fun b => if b then 1 else 0) _
      (IRValue.constVal 1 1)).2.2.2.1 1 rfl (by decide),
   (claim_C9_operand_to_bool (fun b => if b then 1 else 0) _
      (IRValue.varVal 1 3)).2.2.2.2 3 42 rfl (by rfl)⟩

/-- C10: a failed `add_bc_path`, `add_bc_dir`, or `add_bc_dir_with_blacklist`
leaves the project's module collection exactly as it was: every new module is
parsed (and the whole directory collected) before anything is appended, so
enumeration and lookups afterwards agree with those before the call; on
success the parsed modules are appended at the end. -/
theorem claim_C10_failed_add_is_noop (parse : FsPath → Except String Module)
    (p : Project) (path : FsPath)
    (listing : Except String (List (Except String DirEntry)))
    (extn : String) (exclude : FsPath → Bool) :
    (isError (Project.add_bc_path parse p path).1 = true →
      (Project.add_bc_path parse p path).2 = p) ∧
    (isError (Project.add_bc_dir parse p listing extn).1 = true →
      (Project.add_bc_dir parse p listing extn).2 = p) ∧
    (isError (Project.add_bc_dir_with_blacklist parse p listing extn
        exclude).1 = true →
      (Project.add_bc_dir_with_blacklist parse p listing extn exclude).2 = p) ∧
    (∀ name, isError (Project.add_bc_dir parse p listing extn).1 = true →
      ((Project.add_bc_dir parse p listing extn).2).get_func_by_name name
        = p.get_func_by_name name) ∧
    (isError (Project.add_bc_path parse p path).1 = true →
      ((Project.add_bc_path parse p path).2).all_functions
        = p.all_functions) ∧
    (∀ ms, modules_from_bc_dir parse listing extn (fun _ => false) = .ok ms →
      (Project.add_bc_dir parse p listing extn).2.modules
        = p.modules ++ ms) := by
  refine ⟨?_, ?_, ?_, ?_, ?_, ?_⟩
  · intro h
    cases hp : parse path with
    | error e => simp [Project.add_bc_path, hp]
    | ok m => simp [isError, Project.add_bc_path, hp] at h
  · intro h
    cases hd : modules_from_bc_dir parse listing extn (fun _ => false) with
    | error e => simp [Project.add_bc_dir, hd]
    | ok ms => simp [isError, Project.add_bc_dir, hd] at h
  · intro h
    cases hd : modules_from_bc_dir parse listing extn exclude with
    | error e => simp [Project.add_bc_dir_with_blacklist, hd]
    | ok ms => simp [isError, Project.add_bc_dir_with_blacklist, hd] at h
  · intro name h
    cases hd : modules_from_bc_dir parse listing extn (fun _ => false) with
    | error e => simp [Project.add_bc_dir, hd]
    | ok ms => simp [isError, Project.add_bc_dir, hd] at h
  · intro h
    cases hp : parse path with
    | error e => simp [Project.add_bc_path, hp]
    | ok m => simp [isError, Project.add_bc_path, hp] at h
  · intro ms hd
    simp [Project.add_bc_dir, hd]

theorem claim_C10_witness :
    (isError (Project.add_bc_path (fun _ => .error "parse failure")
        (Project.mk [Module.mk "a" [] []]) (FsPath.mk "p" none)).1
      = true) ∧
    (Project.add_bc_path (fun _ => .error "parse failure")
        (Project.mk [Module.mk "a" [] []]) (FsPath.mk "p" none)).2
      = Project.mk [Module.mk "a" [] []] ∧
    (isError (Project.add_bc_dir (fun _ => .error "parse failure")
        (Project.mk [Module.mk "a" [] []]) (.error "io failure") "bc").1
      = true) ∧
    (Project.add_bc_dir (fun _ => .error "parse failure")
        (Project.mk [Module.mk "a" [] []]) (.error "io failure") "bc").2
      = Project.mk [Module.mk "a" [] []] :=
  ⟨rfl,
    (claim_C10_failed_add_is_noop (fun _ => .error "parse failure")
      (Project.mk [Module.mk "a" [] []]) (FsPath.mk "p" none)
      (.error "io failure") "bc" (fun _ => false)).1 rfl,
    rfl,
    (claim_C10_failed_add_is_noop (fun _ => .error "parse failure")
      (Project.mk [Module.mk "a" [] []]) (FsPath.mk "p" none)
      (.error "io failure") "bc" (fun _ => false)).2.1 rfl⟩

end Haybale
